import Mathlib

/-!
# Verification of the `timewheel` package (HuXin0817/timewheel)

Shallow embedding of `src/timewheel.go`.

Modelling conventions:
* `time.Duration` and `time.Time` (both 64-bit integers in Go) are modelled
  as `Int`; Go's integer division truncates toward zero, which is `Int.tdiv`,
  and panics on a zero divisor, which is modelled by returning `none`.
  (Int64 overflow is not relevant to any property proved here.)
* A Go channel of capacity 1 is modelled by the full history of values ever
  sent on it (`C : List Int`); a send appends. A send finds the buffer
  occupied (and hence blocks) exactly when an earlier send was not yet
  received; "at most one send ever" is `C.length ≤ 1`.
* The `map[int64][]*T` bucket map of a `timeslot` is an association list
  `Store` with at most one entry per key (as in a Go map); entries are the
  numeric ids of the timers/tickers, which live in side tables of the
  wheel state (this stands in for Go's pointers).
* Mutexes are not modelled: the embedding is sequential, and each lock in
  the source is scoped to a single map mutation.
* The driver goroutine body for one pulse of `tw.ticker.C` is the function
  `driverStep`; it also returns whether the goroutine keeps running and the
  list of callback-invocation events of that pulse, in order.
-/

/-- Send/firing events emitted while a bucket is processed, in invocation
order: `timerCb id` is the timer store's callback (`t.Stop()`) applied to
timer `id`; `tickerCb id` is the ticker store's callback applied to
ticker `id`. -/
inductive Ev where
  | timerCb (id : Nat)
  | tickerCb (id : Nat)
deriving DecidableEq, Repr

/-- `const minInterval = 10 * time.Millisecond` (in nanoseconds). -/
def minInterval : Int := 10000000

/-- The bucket map `slot map[int64][]*T` of a `timeslot`, as an association
list from tick index to the list of entry ids, in insertion order. -/
abbrev Store := List (Int × List Nat)

/-- Go map lookup `s, ok := ts.slot[idx]`. -/
def Store.find (st : Store) (idx : Int) : Option (List Nat) :=
  match st with
  | [] => none
  | (k, v) :: rest => if k = idx then some v else Store.find rest idx

/-- `timeslot.add`: append to the bucket at `idx` if present, else create a
singleton bucket (the capacity hint of the Go slice is irrelevant here). -/
def Store.add (st : Store) (idx : Int) (id : Nat) : Store :=
  match st with
  | [] => [(idx, [id])]
  | (k, v) :: rest =>
      if k = idx then (k, v ++ [id]) :: rest
      else (k, v) :: Store.add rest idx id

/-- Go map `delete(ts.slot, idx)`. -/
def Store.erase (st : Store) (idx : Int) : Store :=
  st.filter (fun kv => kv.1 != idx)

/-- `Timer`: the channel `C` (its send history) and the atomic `stop` flag.
The `belong` back-pointer is implicit: operations take the wheel state. -/
structure Timer where
  stop : Bool
  C : List Int
deriving DecidableEq, Repr

instance : Inhabited Timer := ⟨⟨false, []⟩⟩

/-- `Ticker`: channel send history `C`, the atomic `increment`, and the
atomic `stop` flag. -/
structure Ticker where
  stop : Bool
  increment : Int
  C : List Int
deriving DecidableEq, Repr

instance : Inhabited Ticker := ⟨⟨false, 0, []⟩⟩

/-- `func (t *Timer) Stop()`: if the flag is set, return; else set the flag
and send `t.belong.now` (passed in as `now`) on the channel. -/
def Timer.Stop (t : Timer) (now : Int) : Timer :=
  if t.stop then t else { t with stop := true, C := t.C ++ [now] }

/-- `func (t *Ticker) Stop()`: same guard and send as `Timer.Stop`. -/
def Ticker.Stop (t : Ticker) (now : Int) : Ticker :=
  if t.stop then t else { t with stop := true, C := t.C ++ [now] }

/-- `func (t *Ticker) Reset(d)`: store `int64(d / t.belong.interval)` in
`increment`. Go division panics when the interval is zero (`none`); there
is no minimum clamp in the source. -/
def Ticker.Reset (t : Ticker) (interval d : Int) : Option Ticker :=
  if interval = 0 then none
  else some { t with increment := d.tdiv interval }

/-- `TimeWheel`. `timers`/`tickers` are the side tables giving each entry
id its current state; `pulsing` models whether the driving `time.Ticker`
is running, `period` its current period. -/
structure TimeWheel where
  now : Int
  current : Int
  interval : Int
  period : Int
  pulsing : Bool
  timerSlot : Store
  tickerSlot : Store
  timers : List Timer
  tickers : List Ticker
  stop : Bool
deriving DecidableEq, Repr

/-- Dereference a timer id (a `*Timer` in Go). -/
def TimeWheel.getTimer (tw : TimeWheel) (id : Nat) : Timer :=
  tw.timers.getD id default

/-- Dereference a ticker id (a `*Ticker` in Go). -/
def TimeWheel.getTicker (tw : TimeWheel) (id : Nat) : Ticker :=
  tw.tickers.getD id default

/-- The timer store's callback from `New`: `func(t *Timer) { t.Stop() }`,
where `Stop` sends `t.belong.now`, i.e. the wheel's `now` at invocation. -/
def timerFire (tw : TimeWheel) (id : Nat) : TimeWheel :=
  { tw with timers := tw.timers.set id ((tw.getTimer id).Stop tw.now) }

/-- The ticker store's callback from `New`:
```
func(t *Ticker) {
    if t.stop.Load() { return }
    t.C <- tw.now
    tw.tickerSlot.add(tw.current+t.increment.Load(), t)
}
``` -/
def tickerFire (tw : TimeWheel) (id : Nat) : TimeWheel :=
  let tk := tw.getTicker id
  if tk.stop then tw
  else
    let tw1 := { tw with tickers := tw.tickers.set id { tk with C := tk.C ++ [tw.now] } }
    { tw1 with tickerSlot := tw1.tickerSlot.add (tw1.current + tk.increment) id }

/-- `timeslot.done(idx)` for the timer store: if a bucket exists at `idx`,
invoke the callback on each captured entry in order, then delete `idx`
from the (possibly changed) map. Also returns the invocation events. -/
def timerDone (tw : TimeWheel) (idx : Int) : TimeWheel × List Ev :=
  match tw.timerSlot.find idx with
  | none => (tw, [])
  | some s =>
      let tw1 := s.foldl timerFire tw
      ({ tw1 with timerSlot := tw1.timerSlot.erase idx }, s.map Ev.timerCb)

/-- `timeslot.done(idx)` for the ticker store: the callbacks run while the
bucket is still in the map (they may `add` to it); the delete comes last. -/
def tickerDone (tw : TimeWheel) (idx : Int) : TimeWheel × List Ev :=
  match tw.tickerSlot.find idx with
  | none => (tw, [])
  | some s =>
      let tw1 := s.foldl tickerFire tw
      ({ tw1 with tickerSlot := tw1.tickerSlot.erase idx }, s.map Ev.tickerCb)

/-- One pulse of the driver goroutine:
```
for tw.now = range tw.ticker.C {
    if tw.stop.Load() { return }
    tw.current++
    tw.timerSlot.done(tw.current)
    tw.tickerSlot.done(tw.current)
}
```
The range assignment writes `tw.now` before the stop check. Returns the
state, whether the goroutine keeps running, and the events of the pulse. -/
def driverStep (tw : TimeWheel) (t : Int) : TimeWheel × Bool × List Ev :=
  let tw1 := { tw with now := t }
  if tw1.stop then (tw1, false, [])
  else
    let tw2 := { tw1 with current := tw1.current + 1 }
    let r1 := timerDone tw2 tw2.current
    let r2 := tickerDone r1.1 tw2.current
    (r2.1, true, r1.2 ++ r2.2)

/-- The state after one driver pulse. -/
def step (tw : TimeWheel) (t : Int) : TimeWheel :=
  (driverStep tw t).1

/-- The state after a sequence of driver pulses with the given timestamps. -/
def run (tw : TimeWheel) (ts : List Int) : TimeWheel :=
  ts.foldl step tw

/-- `func New(interval) *TimeWheel` (driver goroutine modelled by
`driverStep`): clamp the interval to `minInterval`, capture `now`,
start the pulse source. Go zero values: `current = 0`, empty maps. -/
def New (now0 interval : Int) : TimeWheel :=
  let i := if interval < minInterval then minInterval else interval
  { now := now0, current := 0, interval := i, period := i, pulsing := true,
    timerSlot := [], tickerSlot := [], timers := [], tickers := [],
    stop := false }

/-- `func (tw *TimeWheel) Now() time.Time`. -/
def TimeWheel.Now (tw : TimeWheel) : Int :=
  tw.now

/-- `func (tw *TimeWheel) Since(t) time.Duration`. -/
def TimeWheel.Since (tw : TimeWheel) (t : Int) : Int :=
  tw.now - t

/-- `func (tw *TimeWheel) Stop()`: set the stop flag and stop the driving
`time.Ticker`. -/
def TimeWheel.Stop (tw : TimeWheel) : TimeWheel :=
  { tw with stop := true, pulsing := false }

/-- `func (tw *TimeWheel) Reset(d)`: first `tw.ticker.Reset(d)` — the
standard library's `time.Ticker.Reset` panics for non-positive `d`
(modelled as `none`), before `tw.interval = d` runs — then record `d` as
the interval, with no minimum clamp. -/
def TimeWheel.Reset (tw : TimeWheel) (d : Int) : Option TimeWheel :=
  if d ≤ 0 then none
  else some { tw with period := d, interval := d }

/-- `func (tw *TimeWheel) increment(d) int64`: `1` when `d <= interval`,
else `int64(d / interval)`; the division panics (`none`) when the
interval is zero. -/
def TimeWheel.increment (tw : TimeWheel) (d : Int) : Option Int :=
  if d ≤ tw.interval then some 1
  else if tw.interval = 0 then none
  else some (d.tdiv tw.interval)

/-- `func (tw *TimeWheel) NewTimer(d) *Timer`: register a fresh timer at
index `tw.current + tw.increment(d)`; returns the new state and the new
timer's id. -/
def TimeWheel.NewTimer (tw : TimeWheel) (d : Int) : Option (TimeWheel × Nat) :=
  match tw.increment d with
  | none => none
  | some inc =>
      let id := tw.timers.length
      some ({ tw with
                timers := tw.timers ++ [{ stop := false, C := [] }],
                timerSlot := tw.timerSlot.add (tw.current + inc) id }, id)

/-- `func (tw *TimeWheel) After(d) chan time.Time`: sugar for
`tw.NewTimer(d).C`. -/
def TimeWheel.After (tw : TimeWheel) (d : Int) : Option (TimeWheel × Nat) :=
  tw.NewTimer d

/-- `func (tw *TimeWheel) NewTicker(d) *Ticker`: create a ticker whose
`increment` is `tw.increment(d)` and register it at
`tw.current + increment`; returns the new state and the new ticker's id. -/
def TimeWheel.NewTicker (tw : TimeWheel) (d : Int) : Option (TimeWheel × Nat) :=
  match tw.increment d with
  | none => none
  | some inc =>
      let id := tw.tickers.length
      some ({ tw with
                tickers := tw.tickers ++ [{ stop := false, increment := inc, C := [] }],
                tickerSlot := tw.tickerSlot.add (tw.current + inc) id }, id)

/-! ## Helper lemmas -/

/-- Deleting a key removes it from the map. -/
theorem Store.find_erase (st : Store) (idx : Int) :
    (st.erase idx).find idx = none := by
  induction st with
  | nil => rfl
  | cons kv rest ih =>
      obtain ⟨k, v⟩ := kv
      by_cases hk : k = idx
      · simpa [Store.erase, List.filter_cons, hk] using ih
      · simpa [Store.erase, List.filter_cons, hk, Store.find] using ih

/-- `add` appends the new entry at the end of the bucket at its index. -/
theorem Store.find_add (st : Store) (idx : Int) (id : Nat) :
    (st.add idx id).find idx = some ((st.find idx).getD [] ++ [id]) := by
  induction st with
  | nil => simp [Store.add, Store.find]
  | cons kv rest ih =>
      obtain ⟨k, v⟩ := kv
      by_cases hk : k = idx
      · simp [Store.add, Store.find, hk]
      · simpa [Store.add, Store.find, hk] using ih

/-- A stopped timer is unaffected by further `Stop` calls. -/
theorem timerStop_noop (t : Timer) (n : Int) (h : t.stop = true) :
    Timer.Stop t n = t := by
  simp [Timer.Stop, h]

/-- A stopped timer is unaffected by any sequence of further `Stop` calls. -/
theorem timerStop_fold_noop (ns : List Int) (t : Timer) (h : t.stop = true) :
    ns.foldl Timer.Stop t = t := by
  induction ns with
  | nil => rfl
  | cons n ns ih => simp [List.foldl_cons, timerStop_noop t n h, ih]

/-- A stopped ticker is unaffected by further `Stop` calls. -/
theorem tickerStop_noop (t : Ticker) (n : Int) (h : t.stop = true) :
    Ticker.Stop t n = t := by
  simp [Ticker.Stop, h]

/-- A stopped ticker is unaffected by any sequence of further `Stop` calls. -/
theorem tickerStop_fold_noop (ns : List Int) (t : Ticker) (h : t.stop = true) :
    ns.foldl Ticker.Stop t = t := by
  induction ns with
  | nil => rfl
  | cons n ns ih => simp [List.foldl_cons, tickerStop_noop t n h, ih]

/-! ## C2 -/

/-- C2: `Stop` is idempotent and delivers exactly one signal: for any fresh
Timer (resp. Ticker) and any sequence of one or more `Stop` invocations
(the driver's natural firing of a Timer is `timerFire`, which applies
`Timer.Stop`, so it is one such invocation), the channel ends with exactly
the one value of the first invocation, and the stop flag is set; later
invocations send nothing and change nothing. -/
theorem C2_stop_idempotent (n0 : Int) (ns : List Int) (t : Timer) (k : Ticker)
    (ht1 : t.stop = false) (ht2 : t.C = [])
    (hk1 : k.stop = false) (hk2 : k.C = []) :
    ((n0 :: ns).foldl Timer.Stop t).C = [n0] ∧
    ((n0 :: ns).foldl Timer.Stop t).stop = true ∧
    ((n0 :: ns).foldl Ticker.Stop k).C = [n0] ∧
    ((n0 :: ns).foldl Ticker.Stop k).stop = true := by
  have h1 : Timer.Stop t n0 = ⟨true, [n0]⟩ := by
    simp [Timer.Stop, ht1, ht2]
  have h2 : Ticker.Stop k n0 = ⟨true, k.increment, [n0]⟩ := by
    simp [Ticker.Stop, hk1, hk2]
  rw [List.foldl_cons, List.foldl_cons, h1, h2,
    timerStop_fold_noop ns _ rfl, tickerStop_fold_noop ns _ rfl]
  exact ⟨rfl, rfl, rfl, rfl⟩

/-- Witness for C2 at a concrete input: three `Stop` invocations on a fresh
timer and ticker with `now` values 42, 1, 2 deliver exactly `[42]`. -/
theorem C2_witness :
    (([42, 1, 2] : List Int).foldl Timer.Stop ⟨false, []⟩).C = [42] ∧
    (([42, 1, 2] : List Int).foldl Timer.Stop ⟨false, []⟩).stop = true ∧
    (([42, 1, 2] : List Int).foldl Ticker.Stop ⟨false, 5, []⟩).C = [42] ∧
    (([42, 1, 2] : List Int).foldl Ticker.Stop ⟨false, 5, []⟩).stop = true :=
  C2_stop_idempotent 42 [1, 2] ⟨false, []⟩ ⟨false, 5, []⟩ rfl rfl rfl rfl

/-! ## C3 -/

/-- C3: tick computation. For any wheel with positive interval and any
duration `d`, `increment(d)` returns `1` if `d <= interval` and the
truncated (here: floor, as both operands are positive) quotient
`d / interval` otherwise, always at least `1`; and `NewTimer(d)` registers
the fresh timer in the timer bucket store exactly at index
`current + increment(d)`. -/
theorem C3_tick_computation (tw : TimeWheel) (d : Int) (h : 0 < tw.interval) :
    ∃ k, tw.increment d = some k ∧
      k = (if d ≤ tw.interval then 1 else d.tdiv tw.interval) ∧
      1 ≤ k ∧
      tw.NewTimer d = some ({ tw with
          timers := tw.timers ++ [⟨false, []⟩],
          timerSlot := tw.timerSlot.add (tw.current + k) tw.timers.length },
        tw.timers.length) := by
  by_cases hd : d ≤ tw.interval
  · exact ⟨1, by simp [TimeWheel.increment, hd], by simp [hd], le_refl 1,
      by simp [TimeWheel.NewTimer, TimeWheel.increment, hd]⟩
  · have hne : tw.interval ≠ 0 := by omega
    refine ⟨d.tdiv tw.interval, ?_, by simp [hd], ?_, ?_⟩
    · simp [TimeWheel.increment, hd, hne]
    · have hdi : tw.interval < d := lt_of_not_le hd
      have h0d : 0 ≤ d := by omega
      rw [Int.tdiv_eq_ediv h0d h.le, Int.le_ediv_iff_mul_le h]
      omega
    · simp [TimeWheel.NewTimer, TimeWheel.increment, hd, hne]

/-- Witness for C3: a fresh wheel with the minimum interval and
`d` = 25ms, whose tick count is `⌊25ms / 10ms⌋ = 2`. -/
theorem C3_witness :
    0 < (New 0 0).interval ∧
    ∃ k, (New 0 0).increment 25000000 = some k ∧
      k = (if (25000000 : Int) ≤ (New 0 0).interval then 1
           else Int.tdiv 25000000 (New 0 0).interval) ∧
      1 ≤ k ∧
      (New 0 0).NewTimer 25000000 = some ({ (New 0 0) with
          timers := (New 0 0).timers ++ [⟨false, []⟩],
          timerSlot := (New 0 0).timerSlot.add ((New 0 0).current + k)
            (New 0 0).timers.length },
        (New 0 0).timers.length) :=
  ⟨by decide, C3_tick_computation (New 0 0) 25000000 (by decide)⟩

/-! ## C4 -/

/-- C4 counterexample: the claim "the stored increment after Reset equals
ticksFor(d), in particular it is never zero" is false on the code:
`Ticker.Reset` with `d = 5` and `interval = 10` stores increment `0`,
while `ticksFor(5)` at interval 10 is `1` (`5 <= 10`). -/
theorem C4_counterexample :
    Ticker.Reset ⟨false, 7, []⟩ 10 5 = some ⟨false, 0, []⟩ ∧
    ((0 : Int) = 1 → False) := by
  constructor
  · rfl
  · decide

/-- C4 amended: `Ticker.Reset(d)` updates only the `increment` field (the
channel, the stop flag and the wheel's bucket stores are untouched, so the
already-scheduled pending occurrence is unchanged), and the stored value
is exactly the truncated quotient `d / interval` with no minimum clamp; in
particular it is `0` (not 1) whenever `0 ≤ d < interval`. -/
theorem C4_reset_exact (k : Ticker) (i d : Int) (h1 : i ≠ 0)
    (h2 : 0 ≤ d) (h3 : d < i) :
    Ticker.Reset k i d = some { k with increment := d.tdiv i } ∧
    Ticker.Reset k i d = some { k with increment := 0 } := by
  have hz : d.tdiv i = 0 := by
    rw [Int.tdiv_eq_ediv h2 (by omega)]
    exact Int.ediv_eq_zero_of_lt h2 h3
  constructor
  · simp [Ticker.Reset, h1]
  · simp [Ticker.Reset, h1, hz]

/-- Witness for C4 amended at `d = 5`, `interval = 10`. -/
theorem C4_witness :
    ((10 : Int) ≠ 0) ∧ ((0 : Int) ≤ 5) ∧ ((5 : Int) < 10) ∧
    (Ticker.Reset ⟨false, 7, [3]⟩ 10 5 = some ⟨false, Int.tdiv 5 10, [3]⟩ ∧
     Ticker.Reset ⟨false, 7, [3]⟩ 10 5 = some ⟨false, 0, [3]⟩) :=
  ⟨by decide, by decide, by decide,
    C4_reset_exact ⟨false, 7, [3]⟩ 10 5 (by decide) (by decide) (by decide)⟩

/-! ## C8 -/

/-- C8: `Wheel.Stop` frame condition. `TimeWheel.Stop` sets the stop flag
and halts the pulse source, and leaves both bucket stores, every timer and
ticker (hence every channel: no value is sent anywhere), the current tick
index, the interval and the captured `now` unchanged; `Now` and `Since`
after `Stop` are computed from the last captured `now`. -/
theorem C8_wheel_stop_frame (tw : TimeWheel) (t : Int) :
    (tw.Stop).stop = true ∧ (tw.Stop).pulsing = false ∧
    (tw.Stop).timerSlot = tw.timerSlot ∧ (tw.Stop).tickerSlot = tw.tickerSlot ∧
    (tw.Stop).current = tw.current ∧ (tw.Stop).interval = tw.interval ∧
    (tw.Stop).now = tw.now ∧
    (tw.Stop).timers = tw.timers ∧ (tw.Stop).tickers = tw.tickers ∧
    (tw.Stop).Now = tw.now ∧ (tw.Stop).Since t = tw.now - t := by
  simp [TimeWheel.Stop, TimeWheel.Now, TimeWheel.Since]

/-! ## C10 -/

/-- C10 counterexample: the claim "for every duration d, Wheel.Reset(d)
stores d as the wheel's interval exactly" is false at `d = 0`: the call
`tw.ticker.Reset(0)` panics (modelled as `none`) before the interval
assignment runs, so `Reset(0)` stores nothing at all — there is no
post-`Reset(0)` state with interval 0 in which the claimed division by
zero could occur. -/
theorem C10_counterexample :
    (New 0 20000000).Reset 0 = none ∧
    ((∃ tw2 : TimeWheel, (New 0 20000000).Reset 0 = some tw2
        ∧ tw2.interval = 0) → False) := by
  refine ⟨rfl, ?_⟩
  rintro ⟨tw2, h, _⟩
  have hn : (New 0 20000000).Reset 0 = none := rfl
  rw [hn] at h
  exact Option.noConfusion h

/-- C10 amended: `Wheel.Reset` applies no minimum clamp — for every
`d > 0` it stores `d` exactly as the interval, so it can set an interval
below the `minInterval` that `New` clamps to — but for `d ≤ 0` the
underlying `time.Ticker.Reset` panics before the interval assignment, so
`Wheel.Reset(0)` never stores interval 0 and the claimed division by zero
in a subsequent `NewTimer`/`NewTicker` is unreachable: every successful
`Reset` preserves the precondition `interval > 0`, under which the
tick-count computation is total. -/
theorem C10_reset_no_clamp (tw : TimeWheel) (d d2 n i : Int)
    (h : 0 < d) (h2 : d2 ≤ 0) :
    tw.Reset d = some { tw with period := d, interval := d } ∧
    minInterval ≤ (New n i).interval ∧
    tw.Reset d2 = none ∧
    (∀ tw2 : TimeWheel, tw.Reset d = some tw2 → 0 < tw2.interval) ∧
    (∀ (tw2 : TimeWheel) (d3 : Int), 0 < tw2.interval →
      (tw2.increment d3).isSome = true) := by
  have hr : tw.Reset d = some { tw with period := d, interval := d } := by
    simp only [TimeWheel.Reset]
    rw [if_neg (by omega)]
  have hmin : minInterval ≤ (New n i).interval := by
    simp only [New]
    split
    · exact le_refl _
    · omega
  have hnone : tw.Reset d2 = none := by
    simp only [TimeWheel.Reset]
    rw [if_pos h2]
  refine ⟨hr, hmin, hnone, ?_, ?_⟩
  · intro tw2 htw2
    rw [hr] at htw2
    have he := Option.some.inj htw2
    rw [← he]
    exact h
  · intro tw2 d3 h3
    by_cases hd : d3 ≤ tw2.interval
    · simp [TimeWheel.increment, hd]
    · have hne : ¬ tw2.interval = 0 := by omega
      simp [TimeWheel.increment, hd, hne]

/-- Witness for C10 amended: `Reset(5)` on a fresh wheel succeeds and
stores interval 5ns, far below `New`'s 10ms clamp; `Reset(0)` panics. -/
theorem C10_witness :
    (0 : Int) < 5 ∧ (0 : Int) ≤ 0 ∧
    ((New 7 3).Reset 5 = some { New 7 3 with period := 5, interval := 5 } ∧
     minInterval ≤ (New 7 3).interval ∧
     (New 7 3).Reset 0 = none ∧
     (∀ tw2 : TimeWheel, (New 7 3).Reset 5 = some tw2 → 0 < tw2.interval) ∧
     (∀ (tw2 : TimeWheel) (d3 : Int), 0 < tw2.interval →
       (tw2.increment d3).isSome = true)) :=
  ⟨by decide, by decide, C10_reset_no_clamp (New 7 3) 5 0 7 3 (by decide) (by decide)⟩

/-! ## C1 -/

/-- A wheel holding one unstopped ticker with increment 0 in the bucket at
index 1, about to be processed by the next pulse. -/
def C1tw : TimeWheel :=
  { now := 0, current := 0, interval := 1, period := 1, pulsing := true,
    timerSlot := [], tickerSlot := [(1, [0])], timers := [],
    tickers := [⟨false, 0, []⟩], stop := false }

/-- C1 counterexample: processing bucket 1 of `C1tw` invokes the ticker's
callback (it fires: its channel receives the pulse time 5, and, having
increment 0, it re-adds itself at the index being processed), yet after
`done` returns the bucket store has no entry at index 1 at all: the
re-inserted entry did not land in a fresh bucket that survives `done`,
because `done` deletes the index after the callbacks, not before. -/
theorem C1_counterexample :
    (step C1tw 5).tickers = [⟨false, 0, [5]⟩] ∧
    Store.find (step C1tw 5).tickerSlot 1 = none ∧
    (step C1tw 5).tickerSlot = [] := by
  refine ⟨rfl, rfl, rfl⟩

/-- C1 amended: when a bucket exists at `idx`, `done(idx)` invokes the
callbacks on the originally captured entry sequence in insertion order
while the bucket is still in the map, and deletes index `idx` only after
all callbacks have run; consequently an `add(idx, e)` performed by a
callback during the same `done(idx)` is removed again by that final
delete, so no entry remains at `idx` after `done` returns. -/
theorem C1_done_deletes_last (tw : TimeWheel) (idx : Int) (s : List Nat)
    (h : tw.tickerSlot.find idx = some s) :
    Store.find (tickerDone tw idx).1.tickerSlot idx = none ∧
    (tickerDone tw idx).2 = s.map Ev.tickerCb := by
  simp only [tickerDone, h]
  exact ⟨Store.find_erase _ idx, trivial⟩

/-- Witness for C1 amended, at the concrete wheel `C1tw` and index 1. -/
theorem C1_witness :
    Store.find (tickerDone C1tw 1).1.tickerSlot 1 = none ∧
    (tickerDone C1tw 1).2 = [Ev.tickerCb 0] :=
  C1_done_deletes_last C1tw 1 [0] rfl

/-! ## C5 -/

/-- A wheel holding one unstopped ticker with increment 1 in the bucket at
index 1; nothing ever receives from its channel. -/
def C5tw : TimeWheel :=
  { now := 0, current := 0, interval := 1, period := 1, pulsing := true,
    timerSlot := [], tickerSlot := [(1, [0])], timers := [],
    tickers := [⟨false, 1, []⟩], stop := false }

/-- C5 counterexample: after two driver pulses the ticker of `C5tw` has
fired twice and its capacity-1 channel has received two sends with no
intervening receive — so the second send found the buffer occupied and
(in Go) blocks the driver; "at most one send per channel lifetime" is
false for tickers. -/
theorem C5_counterexample :
    (run C5tw [10, 20]).tickers = [⟨false, 1, [10, 20]⟩] ∧
    (((run C5tw [10, 20]).getTicker 0).C.length ≤ 1 → False) := by
  exact ⟨rfl, by decide⟩

/-- C5 amended: a Timer's channel receives at most one send over its
lifetime (every mutation of a timer anywhere in the code is a
`Timer.Stop` invocation, and any sequence of those sends at most once),
so timer sends never block; a Ticker's firing callback, however, appends
one send on every un-stopped invocation, so a Ticker whose earlier signal
has not been consumed blocks the Driver when it fires again. -/
theorem C5_send_bounds (t : Timer) (ns : List Int) (tw : TimeWheel) (id : Nat)
    (h1 : t.stop = false) (h2 : t.C = [])
    (h3 : (tw.getTicker id).stop = false) (h4 : id < tw.tickers.length) :
    (ns.foldl Timer.Stop t).C.length ≤ 1 ∧
    ((tickerFire tw id).getTicker id).C = (tw.getTicker id).C ++ [tw.now] := by
  constructor
  · cases ns with
    | nil => simp [h2]
    | cons n ns =>
        have h5 : Timer.Stop t n = ⟨true, [n]⟩ := by
          simp [Timer.Stop, h1, h2]
        rw [List.foldl_cons, h5, timerStop_fold_noop ns _ rfl]
        simp
  · have h5 : (tw.tickers.getD id default).stop = false := h3
    have h6 : id < tw.tickers.length := h4
    simp only [tickerFire, TimeWheel.getTicker, h5, Bool.false_eq_true, if_false]
    rw [List.getD_eq_getElem?_getD, List.getElem?_set_eq_of_lt _ h6]
    rfl

/-- Witness for C5 amended: a fresh timer stopped twice, and one firing of
the ticker of `C5tw`. -/
theorem C5_witness :
    (([4, 6] : List Int).foldl Timer.Stop ⟨false, []⟩).C.length ≤ 1 ∧
    ((tickerFire C5tw 0).getTicker 0).C = ((C5tw.getTicker 0).C ++ [C5tw.now]) :=
  C5_send_bounds ⟨false, []⟩ [4, 6] C5tw 0 rfl rfl rfl (by decide)

/-! ## C7 -/

/-- A stopped wheel about to receive one more (already in-flight) pulse. -/
def C7tw : TimeWheel :=
  { now := 0, current := 0, interval := 1, period := 1, pulsing := true,
    timerSlot := [], tickerSlot := [], timers := [],
    tickers := [], stop := true }

/-- C7 counterexample: on a pulse with the stop flag set the driver does
terminate, but not "without changing the wheel state": the range
assignment `tw.now = <-tw.ticker.C` runs before the stop check, so `now`
is updated to the pulse timestamp (here 0 becomes 99). -/
theorem C7_counterexample :
    (driverStep C7tw 99).2.1 = false ∧
    ((driverStep C7tw 99).1 = C7tw → False) := by
  exact ⟨rfl, by decide⟩

/-- The entry list of the bucket at `idx` (empty when no bucket exists). -/
def bucketOf (st : Store) (idx : Int) : List Nat :=
  (st.find idx).getD []

/-- `timerFire` only touches the `timers` table: everything else of the
wheel is preserved by any fold of timer callbacks. -/
theorem timerFire_fold_frame (s : List Nat) (tw : TimeWheel) :
    (s.foldl timerFire tw).tickerSlot = tw.tickerSlot ∧
    (s.foldl timerFire tw).timerSlot = tw.timerSlot ∧
    (s.foldl timerFire tw).current = tw.current ∧
    (s.foldl timerFire tw).now = tw.now ∧
    (s.foldl timerFire tw).stop = tw.stop ∧
    (s.foldl timerFire tw).tickers = tw.tickers := by
  induction s generalizing tw with
  | nil => exact ⟨rfl, rfl, rfl, rfl, rfl, rfl⟩
  | cons a s ih => exact ih (timerFire tw a)

/-- `tickerFire` only touches the `tickers` table and the ticker bucket
store. -/
theorem tickerFire_frame (tw : TimeWheel) (id : Nat) :
    (tickerFire tw id).timerSlot = tw.timerSlot ∧
    (tickerFire tw id).timers = tw.timers ∧
    (tickerFire tw id).current = tw.current ∧
    (tickerFire tw id).now = tw.now ∧
    (tickerFire tw id).stop = tw.stop := by
  by_cases h : (tw.getTicker id).stop = true <;>
    simp [tickerFire, h]

/-- Fold version of `tickerFire_frame`. -/
theorem tickerFire_fold_frame (s : List Nat) (tw : TimeWheel) :
    (s.foldl tickerFire tw).timerSlot = tw.timerSlot ∧
    (s.foldl tickerFire tw).timers = tw.timers ∧
    (s.foldl tickerFire tw).current = tw.current ∧
    (s.foldl tickerFire tw).now = tw.now ∧
    (s.foldl tickerFire tw).stop = tw.stop := by
  induction s generalizing tw with
  | nil => exact ⟨rfl, rfl, rfl, rfl, rfl⟩
  | cons a s ih =>
      obtain ⟨e1, e2, e3, e4, e5⟩ := ih (tickerFire tw a)
      obtain ⟨f1, f2, f3, f4, f5⟩ := tickerFire_frame tw a
      exact ⟨e1.trans f1, e2.trans f2, e3.trans f3, e4.trans f4, e5.trans f5⟩

/-- What one `done` call on the timer store preserves, and its events. -/
theorem timerDone_spec (tw : TimeWheel) (idx : Int) :
    (timerDone tw idx).1.tickerSlot = tw.tickerSlot ∧
    (timerDone tw idx).1.current = tw.current ∧
    (timerDone tw idx).1.now = tw.now ∧
    (timerDone tw idx).1.stop = tw.stop ∧
    (timerDone tw idx).1.tickers = tw.tickers ∧
    (timerDone tw idx).2 = (bucketOf tw.timerSlot idx).map Ev.timerCb := by
  cases h : tw.timerSlot.find idx with
  | none => simp [timerDone, h, bucketOf]
  | some s =>
      obtain ⟨e1, e2, e3, e4, e5, e6⟩ := timerFire_fold_frame s tw
      simp [timerDone, h, bucketOf, e1, e2, e3, e4, e5, e6]

/-- What one `done` call on the ticker store preserves, and its events. -/
theorem tickerDone_spec (tw : TimeWheel) (idx : Int) :
    (tickerDone tw idx).1.timerSlot = tw.timerSlot ∧
    (tickerDone tw idx).1.current = tw.current ∧
    (tickerDone tw idx).1.now = tw.now ∧
    (tickerDone tw idx).1.stop = tw.stop ∧
    (tickerDone tw idx).1.timers = tw.timers ∧
    (tickerDone tw idx).2 = (bucketOf tw.tickerSlot idx).map Ev.tickerCb := by
  cases h : tw.tickerSlot.find idx with
  | none => simp [tickerDone, h, bucketOf]
  | some s =>
      obtain ⟨e1, e2, e3, e4, e5⟩ := tickerFire_fold_frame s tw
      simp [tickerDone, h, bucketOf, e1, e2, e3, e4, e5]

/-- C7 amended: on each pulse the driver first records the pulse timestamp
into `now`; then, if the stop flag is set, it terminates leaving every
other component unchanged; otherwise it keeps running, increments the
current index by exactly 1, and the pulse's events are the timer bucket at
the new index processed before the ticker bucket at the same index, each
bucket in its stored (insertion) order — and `add` indeed appends at the
end of a bucket, so stored order is insertion order. -/
def C7pre (tw : TimeWheel) (t : Int) : TimeWheel :=
  { tw with stop := false, now := t, current := tw.current + 1 }

theorem C7_driver_step (tw : TimeWheel) (t : Int) (st : Store) (idx : Int) (id : Nat) :
    driverStep { tw with stop := true } t
      = ({ tw with stop := true, now := t }, false, []) ∧
    (driverStep { tw with stop := false } t).2.1 = true ∧
    (driverStep { tw with stop := false } t).1.now = t ∧
    (driverStep { tw with stop := false } t).1.current = tw.current + 1 ∧
    (driverStep { tw with stop := false } t).2.2
      = (bucketOf tw.timerSlot (tw.current + 1)).map Ev.timerCb
        ++ (bucketOf tw.tickerSlot (tw.current + 1)).map Ev.tickerCb ∧
    (st.add idx id).find idx = some ((st.find idx).getD [] ++ [id]) := by
  have key : driverStep { tw with stop := false } t
      = ((tickerDone (timerDone (C7pre tw t) (tw.current + 1)).1 (tw.current + 1)).1,
         true,
         (timerDone (C7pre tw t) (tw.current + 1)).2
           ++ (tickerDone (timerDone (C7pre tw t) (tw.current + 1)).1 (tw.current + 1)).2) := rfl
  obtain ⟨a1, a2, a3, a4, a5, a6⟩ := timerDone_spec (C7pre tw t) (tw.current + 1)
  obtain ⟨b1, b2, b3, b4, b5, b6⟩ :=
    tickerDone_spec (timerDone (C7pre tw t) (tw.current + 1)).1 (tw.current + 1)
  refine ⟨by simp [driverStep], ?_, ?_, ?_, ?_, Store.find_add st idx id⟩
  · rw [key]
  · rw [key]
    exact b3.trans a3
  · rw [key]
    exact b2.trans a2
  · rw [key]
    show (timerDone _ _).2 ++ (tickerDone _ _).2 = _
    rw [a6, b6, a1]
    rfl

/-- A pulse that finds no bucket at the new index (and an empty timer
store) only records the timestamp and advances the index. -/
theorem step_no_bucket (tw : TimeWheel) (t : Int)
    (h1 : tw.stop = false) (h2 : tw.timerSlot = [])
    (h3 : tw.tickerSlot.find (tw.current + 1) = none) :
    step tw t = { tw with now := t, current := tw.current + 1 } := by
  simp only [step, driverStep, h1, Bool.false_eq_true, if_false,
    timerDone, tickerDone, h2, h3, Store.find]

/-- A run of pulses that all stay strictly ahead of the single occupied
ticker bucket leaves everything but `now` and `current` unchanged. -/
theorem run_ahead (ts : List Int) (tw : TimeWheel) (b : Int) (ids : List Nat)
    (h1 : tw.stop = false) (h2 : tw.timerSlot = [])
    (h3 : tw.tickerSlot = [(b, ids)])
    (h4 : tw.current + ts.length < b) :
    run tw ts = { tw with
                  now := ts.foldl (fun _ x => x) tw.now,
                  current := tw.current + ts.length } := by
  induction ts generalizing tw with
  | nil =>
      show tw = _
      cases tw
      simp
  | cons t ts ih =>
      have hb : b ≠ tw.current + 1 := by
        simp only [List.length_cons] at h4
        push_cast at h4
        omega
      have hfind : tw.tickerSlot.find (tw.current + 1) = none := by
        rw [h3]
        simp [Store.find, hb]
      have hstep := step_no_bucket tw t h1 h2 hfind
      show run (step tw t) ts = _
      rw [hstep]
      rw [ih { tw with now := t, current := tw.current + 1 } h1 h2 h3
        (by simp only [List.length_cons] at h4; push_cast at h4 ⊢; omega)]
      congr 1
      · simp only [List.length_cons]
        push_cast
        ring

/-- The firing pulse for a single unstopped ticker with increment `k ≥ 1`
sitting alone in the bucket at the next index: it receives the pulse time
on its channel and moves to the bucket `k` further on. -/
theorem step_fire (tw : TimeWheel) (t : Int) (k : Int) (cs : List Int)
    (h1 : tw.stop = false) (h2 : tw.timerSlot = [])
    (h3 : tw.tickerSlot = [(tw.current + 1, [0])])
    (h4 : tw.tickers = [⟨false, k, cs⟩])
    (h5 : 1 ≤ k) :
    step tw t = { tw with
                  now := t, current := tw.current + 1,
                  tickerSlot := [(tw.current + 1 + k, [0])],
                  tickers := [⟨false, k, cs ++ [t]⟩] } := by
  have hne : ¬ (tw.current + 1 = tw.current + 1 + k) := by omega
  have hbne : ((tw.current + 1 + k != tw.current + 1) = true) := by
    simp only [bne_iff_ne, ne_eq]
    omega
  simp only [step, driverStep, h1, Bool.false_eq_true, if_false,
    timerDone, h2, Store.find, tickerDone, h3, if_pos rfl, ite_true,
    List.foldl_cons, List.foldl_nil, tickerFire, TimeWheel.getTicker, h4,
    List.getD_cons_zero, List.set_cons_zero, Store.add, hne, if_false,
    Store.erase, List.filter_cons, bne_self_eq_false, hbne,
    List.filter_nil]

/-- Running `j+1` pulses from a state whose single unstopped ticker
(increment `k ≥ 1`) sits alone `j+1` ticks ahead: the first `j` pulses hit
empty buckets, the last one fires the ticker, which ends up `k` ticks
ahead of the new current index with one more value on its channel. -/
theorem run_to_fire (j : Nat) (ts : List Int) (hlen : ts.length = j + 1)
    (tw : TimeWheel) (k : Int) (cs : List Int)
    (h1 : tw.stop = false) (h2 : tw.timerSlot = [])
    (h3 : tw.tickerSlot = [(tw.current + (j + 1 : Nat), [0])])
    (h4 : tw.tickers = [⟨false, k, cs⟩]) (h5 : 1 ≤ k) :
    ∃ v, run tw ts = { tw with
      now := v, current := tw.current + (j + 1 : Nat),
      tickerSlot := [(tw.current + (j + 1 : Nat) + k, [0])],
      tickers := [⟨false, k, cs ++ [v]⟩] } := by
  induction j generalizing tw ts with
  | zero =>
      match ts, hlen with
      | [t], _ =>
          refine ⟨t, ?_⟩
          have h3' : tw.tickerSlot = [(tw.current + 1, [0])] := by
            rw [h3]
            norm_num
          have hs := step_fire tw t k cs h1 h2 h3' h4 h5
          show step tw t = _
          rw [hs]
          congr 1
  | succ j ih =>
      match ts, hlen with
      | t :: ts2, hlen =>
          have hlen2 : ts2.length = j + 1 := by simpa using hlen
          have hne : ¬ (tw.current + ((j + 1 + 1 : Nat) : Int) = tw.current + 1) := by
            push_cast
            omega
          have hfind : tw.tickerSlot.find (tw.current + 1) = none := by
            rw [h3]
            simp only [Store.find, if_neg hne]
          have hstep := step_no_bucket tw t h1 h2 hfind
          have harith : tw.current + 1 + ((j + 1 : Nat) : Int)
              = tw.current + ((j + 1 + 1 : Nat) : Int) := by
            push_cast
            ring
          have h3n : ({ tw with now := t, current := tw.current + 1 }
              : TimeWheel).tickerSlot
              = [(({ tw with now := t, current := tw.current + 1 }
                  : TimeWheel).current + (j + 1 : Nat), [0])] := by
            show tw.tickerSlot = [(tw.current + 1 + ((j + 1 : Nat) : Int), [0])]
            rw [h3, harith]
          obtain ⟨v, hv⟩ := ih ts2 hlen2
            { tw with now := t, current := tw.current + 1 } h1 h2 h3n h4
          refine ⟨v, ?_⟩
          show run (step tw t) ts2 = _
          rw [hstep, hv]
          show ({ tw with
            now := v, current := tw.current + 1 + ((j + 1 : Nat) : Int),
            tickerSlot := [(tw.current + 1 + ((j + 1 : Nat) : Int) + k, [0])],
            tickers := [⟨false, k, cs ++ [v]⟩] } : TimeWheel) = _
          rw [harith]

/-- Running `M` blocks of `k` pulses each: the single unstopped ticker
with increment `k ≥ 1` fires exactly `M` times and always ends up `k`
ticks ahead of the current index. -/
theorem run_blocks (M : Nat) (k : Nat) (hk : 1 ≤ k) (ts : List Int)
    (hlen : ts.length = M * k)
    (tw : TimeWheel) (cs : List Int)
    (h1 : tw.stop = false) (h2 : tw.timerSlot = [])
    (h3 : tw.tickerSlot = [(tw.current + (k : Int), [0])])
    (h4 : tw.tickers = [⟨false, (k : Int), cs⟩]) :
    ∃ cs2 : List Int, cs2.length = cs.length + M ∧
      (run tw ts).stop = false ∧
      (run tw ts).timerSlot = [] ∧
      (run tw ts).current = tw.current + (M * k : Nat) ∧
      (run tw ts).tickerSlot = [(tw.current + (M * k : Nat) + (k : Int), [0])] ∧
      (run tw ts).tickers = [⟨false, (k : Int), cs2⟩] := by
  induction M generalizing ts tw cs with
  | zero =>
      have hnil : ts = [] := List.eq_nil_of_length_eq_zero (by simpa using hlen)
      subst hnil
      refine ⟨cs, by simp, h1, h2, ?_, ?_, h4⟩
      · show tw.current = _
        norm_num
      · show tw.tickerSlot = _
        rw [h3]
        norm_num
  | succ M ih =>
      obtain ⟨j, rfl⟩ : ∃ j, k = j + 1 := ⟨k - 1, by omega⟩
      have hge : j + 1 ≤ ts.length := by
        rw [hlen]
        exact Nat.le_mul_of_pos_left _ (Nat.succ_pos M)
      have hlen1 : (ts.take (j + 1)).length = j + 1 := by
        rw [List.length_take]
        omega
      have hlen2 : (ts.drop (j + 1)).length = M * (j + 1) := by
        rw [List.length_drop, hlen, Nat.succ_mul, Nat.add_sub_cancel]
      obtain ⟨v, hv⟩ := run_to_fire j (ts.take (j + 1)) hlen1 tw
        ((j + 1 : Nat) : Int) cs h1 h2 h3 h4 (by omega)
      have hsplit := List.take_append_drop (j + 1) ts
      have hrun : run tw ts = run (run tw (ts.take (j + 1))) (ts.drop (j + 1)) :=
        calc run tw ts = run tw (ts.take (j + 1) ++ ts.drop (j + 1)) := by
              rw [hsplit]
          _ = run (run tw (ts.take (j + 1))) (ts.drop (j + 1)) :=
              List.foldl_append step tw _ _
      have hcur : (run tw (ts.take (j + 1))).current
          = tw.current + ((j + 1 : Nat) : Int) := by
        rw [hv]
      obtain ⟨cs2, e0, e1, e2, e3, e4, e5⟩ := ih (ts.drop (j + 1)) hlen2
        (run tw (ts.take (j + 1))) (cs ++ [v])
        (by rw [hv]; exact h1) (by rw [hv]; exact h2) (by rw [hv]) (by rw [hv])
      refine ⟨cs2, by simp at e0 ⊢; omega, ?_, ?_, ?_, ?_, by rw [hrun]; exact e5⟩
      · rw [hrun]
        exact e1
      · rw [hrun]
        exact e2
      · rw [hrun, e3, hcur]
        push_cast
        ring
      · rw [hrun, e4, hcur]
        have keq : tw.current + ((j + 1 : Nat) : Int) + ((M * (j + 1) : Nat) : Int)
            = tw.current + (((M + 1) * (j + 1) : Nat) : Int) := by
          push_cast
          ring
        rw [keq]

/-! ## C6 -/

/-- Wheel state right after a `NewTicker` whose tick count is `k` was
created at current index `c`: the single unstopped ticker (id 0, no sends
yet) sits in the bucket at `c + k`. -/
def tickerWheel (n0 i c : Int) (k : Nat) : TimeWheel :=
  { now := n0, current := c, interval := i, period := i, pulsing := true,
    timerSlot := [], tickerSlot := [(c + (k : Int), [0])], timers := [],
    tickers := [⟨false, (k : Int), []⟩], stop := false }

/-- C6: the ticker firing callback. If the ticker's stopped flag is set,
the callback does nothing at all (no send, no re-insertion: the re-arm
chain is broken). If not, it appends the wheel's `now` to the channel and
re-inserts the ticker at index `current + increment`. Consequently, for a
single unstopped ticker created at tick `t0 = c` with constant increment
`k ≥ 1`: after every run of `M * k` pulses it has fired exactly `M` times
and occupies exactly the bucket `c + (M+1)*k` — i.e. it occupies
`c + k, c + 2k, c + 3k, …` in succession, and is never stopped. -/
theorem C6_ticker_fire_and_periodicity
    (twa twb : TimeWheel) (ida idb : Nat)
    (n0 i c : Int) (k M : Nat) (ts : List Int)
    (ha : (twa.getTicker ida).stop = true)
    (hb : (twb.getTicker idb).stop = false)
    (hk : 1 ≤ k) (hts : ts.length = M * k) :
    tickerFire twa ida = twa ∧
    tickerFire twb idb = { twb with
      tickers := twb.tickers.set idb { twb.getTicker idb with
        C := (twb.getTicker idb).C ++ [twb.now] },
      tickerSlot := twb.tickerSlot.add
        (twb.current + (twb.getTicker idb).increment) idb } ∧
    (∃ cs : List Int, cs.length = M ∧
      (run (tickerWheel n0 i c k) ts).current = c + (M * k : Nat) ∧
      (run (tickerWheel n0 i c k) ts).tickerSlot
        = [(c + (M * k : Nat) + (k : Int), [0])] ∧
      (run (tickerWheel n0 i c k) ts).tickers = [⟨false, (k : Int), cs⟩] ∧
      (run (tickerWheel n0 i c k) ts).stop = false) := by
  refine ⟨by simp [tickerFire, ha], by simp [tickerFire, hb], ?_⟩
  obtain ⟨cs2, e0, e1, e2, e3, e4, e5⟩ := run_blocks M k hk ts hts
    (tickerWheel n0 i c k) [] rfl rfl rfl rfl
  exact ⟨cs2, by simpa using e0, e3, e4, e5, e1⟩

/-- A wheel holding one already-stopped ticker, for the stopped-callback
case of C6. -/
def C6stw : TimeWheel :=
  { now := 0, current := 0, interval := 1, period := 1, pulsing := true,
    timerSlot := [], tickerSlot := [(1, [0])], timers := [],
    tickers := [⟨true, 1, []⟩], stop := false }

/-- Witness for C6: a stopped-ticker wheel, the live wheel `C5tw`, and a
ticker with increment 2 firing twice over 4 pulses. -/
theorem C6_witness :
    ((C6stw.getTicker 0).stop = true) ∧
    ((C5tw.getTicker 0).stop = false) ∧
    (1 ≤ 2) ∧ (([5, 6, 7, 8] : List Int).length = 2 * 2) ∧
    (tickerFire C6stw 0 = C6stw ∧
     tickerFire C5tw 0 = { C5tw with
       tickers := C5tw.tickers.set 0 { C5tw.getTicker 0 with
         C := (C5tw.getTicker 0).C ++ [C5tw.now] },
       tickerSlot := C5tw.tickerSlot.add
         (C5tw.current + (C5tw.getTicker 0).increment) 0 } ∧
     (∃ cs : List Int, cs.length = 2 ∧
       (run (tickerWheel 0 1 0 2) [5, 6, 7, 8]).current = 0 + ((2 * 2 : Nat) : Int) ∧
       (run (tickerWheel 0 1 0 2) [5, 6, 7, 8]).tickerSlot
         = [(0 + ((2 * 2 : Nat) : Int) + (2 : Int), [0])] ∧
       (run (tickerWheel 0 1 0 2) [5, 6, 7, 8]).tickers = [⟨false, (2 : Int), cs⟩] ∧
       (run (tickerWheel 0 1 0 2) [5, 6, 7, 8]).stop = false)) :=
  ⟨rfl, rfl, by omega, rfl,
    C6_ticker_fire_and_periodicity C6stw C5tw 0 0 0 1 0 2 2 [5, 6, 7, 8]
      rfl rfl (by omega) rfl⟩

/-! ## C9 -/

/-- Firing pulse for a single unstopped ticker with increment 0: the
re-insertion targets the very bucket being processed, and the final
delete of `done` removes it again, leaving the store empty. -/
theorem step_fire_zero (tw : TimeWheel) (t : Int) (cs : List Int)
    (h1 : tw.stop = false) (h2 : tw.timerSlot = [])
    (h3 : tw.tickerSlot = [(tw.current + 1, [0])])
    (h4 : tw.tickers = [⟨false, 0, cs⟩]) :
    step tw t = { tw with
                  now := t, current := tw.current + 1,
                  tickerSlot := [],
                  tickers := [⟨false, 0, cs ++ [t]⟩] } := by
  simp only [step, driverStep, h1, Bool.false_eq_true, if_false,
    timerDone, h2, Store.find, tickerDone, h3, if_pos rfl, ite_true,
    List.foldl_cons, List.foldl_nil, tickerFire, TimeWheel.getTicker, h4,
    List.getD_cons_zero, List.set_cons_zero, add_zero, Store.add,
    Store.erase, List.filter_cons, bne_self_eq_false, List.filter_nil]

/-- A pulse on a wheel with both stores empty fires nothing and leaves
both tables unchanged. -/
theorem step_empty_stores (tw : TimeWheel) (t : Int)
    (h2 : tw.timerSlot = []) (h3 : tw.tickerSlot = []) :
    (step tw t).timerSlot = [] ∧ (step tw t).tickerSlot = [] ∧
    (step tw t).tickers = tw.tickers ∧ (step tw t).timers = tw.timers := by
  by_cases h : tw.stop = true
  · simp [step, driverStep, h, h2, h3]
  · have h1 : tw.stop = false := by simpa using h
    simp [step, driverStep, h1, h2, h3, timerDone, tickerDone, Store.find]

/-- A run on a wheel with both stores empty never fires anything. -/
theorem run_empty_stores (ts : List Int) (tw : TimeWheel)
    (h2 : tw.timerSlot = []) (h3 : tw.tickerSlot = []) :
    (run tw ts).timerSlot = [] ∧ (run tw ts).tickerSlot = [] ∧
    (run tw ts).tickers = tw.tickers ∧ (run tw ts).timers = tw.timers := by
  induction ts generalizing tw with
  | nil => exact ⟨h2, h3, rfl, rfl⟩
  | cons t ts ih =>
      obtain ⟨e1, e2, e3, e4⟩ := step_empty_stores tw t h2 h3
      obtain ⟨f1, f2, f3, f4⟩ := ih (step tw t) e1 e2
      exact ⟨f1, f2, f3.trans e3, f4.trans e4⟩

/-- C9: zero-increment self-cancellation. A single unstopped ticker whose
stored increment is 0 (reachable via `Ticker.Reset(d)` with
`0 ≤ d < interval`, which stores `d / interval = 0` — see `C4_reset_exact`)
sits in the bucket at the next index. Processing that bucket fires it once
(it receives the pulse time) and re-inserts it at the index being
processed, and the final delete of `done` removes the re-inserted entry
too: after the pulse the ticker bucket store is empty, the ticker's
stopped flag is still `false`, and it never fires again in any further
run. -/
theorem C9_zero_increment_self_cancel (tw : TimeWheel) (t : Int)
    (cs ts : List Int)
    (h1 : tw.stop = false) (h2 : tw.timerSlot = [])
    (h3 : tw.tickerSlot = [(tw.current + 1, [0])])
    (h4 : tw.tickers = [⟨false, 0, cs⟩]) :
    (step tw t).tickerSlot = [] ∧
    (step tw t).tickers = [⟨false, 0, cs ++ [t]⟩] ∧
    (run (step tw t) ts).tickerSlot = [] ∧
    (run (step tw t) ts).tickers = [⟨false, 0, cs ++ [t]⟩] := by
  have hs := step_fire_zero tw t cs h1 h2 h3 h4
  obtain ⟨f1, f2, f3, f4⟩ := run_empty_stores ts (step tw t)
    (by rw [hs]; exact h2) (by rw [hs])
  refine ⟨by rw [hs], by rw [hs], f2, f3.trans (by rw [hs])⟩

/-- Witness for C9 at the concrete wheel `C1tw` (ticker with increment 0
in bucket 1), one pulse at time 5, then two further pulses. -/
theorem C9_witness :
    (step C1tw 5).tickerSlot = [] ∧
    (step C1tw 5).tickers = [⟨false, 0, [5]⟩] ∧
    (run (step C1tw 5) [9, 11]).tickerSlot = [] ∧
    (run (step C1tw 5) [9, 11]).tickers = [⟨false, 0, [5]⟩] :=
  C9_zero_increment_self_cancel C1tw 5 [] [9, 11] rfl rfl rfl rfl
